import Mathlib

/-!
Shallow embedding of the blackjack hand engine (src/card.rs, src/rule.rs,
src/hand.rs, src/play.rs).

Modelling conventions:
* Rust `f64` amounts (bets, payouts) are modelled as `ℚ`; the only
  arithmetic performed on them is halving, doubling and comparison,
  which the claims describe as exact.
* Rust `u64`/`usize` are modelled as `ℕ` (no overflow is reachable in
  the claims' scope: hand totals are bounded by 21 + one card).
* A Rust `assert!`/`assert_eq!` failure or an `unwrap`/explicit abort is
  modelled as `Option.none` / the `none` branch of an `Option`-returning
  function; `some` means the call returns normally.
-/

/-- src/card.rs: `Suit`. -/
inductive Suit where
  | Clubs
  | Diamonds
  | Hearts
  | Spades
deriving DecidableEq, Repr

/-- src/card.rs: `Rank`. -/
inductive Rank where
  | Ace
  | Two
  | Three
  | Four
  | Five
  | Six
  | Seven
  | Eight
  | Nine
  | Ten
  | Jack
  | Queen
  | King
deriving DecidableEq, Repr

/-- src/card.rs: `Card { suit, rank }`. -/
structure Card where
  suit : Suit
  rank : Rank
deriving DecidableEq, Repr

/-- src/rule.rs: `DealerOnSoft17`. -/
inductive DealerOnSoft17 where
  | H17
  | S17
deriving DecidableEq, Repr

/-- src/rule.rs: `ShuffleKind`. -/
inductive ShuffleKind where
  | Continuous
  | Threshold (n : Nat)
deriving DecidableEq, Repr

/-- src/rule.rs: `RuleSet` fields, in source order.  The accessor the
hand engine calls `can_dd_after_split()` reads the double-after-split
flag, the field the source names `das`. -/
structure RuleSet where
  decks : Nat
  players : Nat
  min_bet : ℚ
  max_bet : ℚ
  shuffle_kind : ShuffleKind
  dealer_on_soft_17 : DealerOnSoft17
  blackjack_payout : ℚ
  double_down_whitelist : List Nat
  max_hands : Nat
  can_play_slit_aces : Bool
  das : Bool
  can_surrender : Bool
deriving DecidableEq, Repr

/-- src/rule.rs: `RuleSetError`. -/
inductive RuleSetError where
  | InvalidDeckNumer
  | InvalidPlayerNumber
  | InvalidBetRange
  | InvalidMaxHands
  | InvalidDoubleDownWhitelist
deriving DecidableEq, Repr

/-- src/rule.rs: `RuleSet::new` — validation checks in source order,
returning on the first failure.  The source iterates the whitelist and
returns `InvalidDoubleDownWhitelist` at the first out-of-range value;
since a single error kind results, this is `List.any`. -/
def RuleSet.new (decks players : Nat) (min_bet max_bet : ℚ)
    (shuffle_kind : ShuffleKind) (dealer_on_soft_17 : DealerOnSoft17)
    (blackjack_payout : ℚ) (double_down_whitelist : List Nat)
    (max_hands : Nat) (can_play_slit_aces das can_surrender : Bool) :
    Except RuleSetError RuleSet :=
  if decks = 0 then
    .error .InvalidDeckNumer
  else if players = 0 then
    .error .InvalidPlayerNumber
  else if min_bet = 0 then
    .error .InvalidBetRange
  else if min_bet > max_bet then
    .error .InvalidBetRange
  else if max_hands < 2 then
    .error .InvalidMaxHands
  else if double_down_whitelist.any (fun val => val < 3 || val > 20) then
    .error .InvalidDoubleDownWhitelist
  else
    .ok ⟨decks, players, min_bet, max_bet, shuffle_kind, dealer_on_soft_17,
      blackjack_payout, double_down_whitelist, max_hands,
      can_play_slit_aces, das, can_surrender⟩

/-- src/hand.rs: `HandValue`. -/
inductive HandValue where
  | Hard (v : Nat)
  | Soft (lower upper : Nat)
deriving DecidableEq, Repr

/-- src/hand.rs: `HandState` (source names: `SpltA` = split-aces locked,
`Stand` = stood, `Busts` = busted, `DDown` = doubled down, `Srndr` =
surrendered). -/
inductive HandState where
  | Fresh
  | Split
  | SpltA
  | Stand
  | Busts
  | DDown
  | Srndr
deriving DecidableEq, Repr

/-- src/hand.rs: `Hand { cards, bet, state }`. -/
structure Hand where
  cards : List Card
  bet : ℚ
  state : HandState
deriving DecidableEq, Repr

/-- src/hand.rs: `Hand::is_terminal`. -/
def Hand.is_terminal (h : Hand) : Bool :=
  match h.state with
  | .Fresh => false
  | .Split => false
  | .SpltA => true
  | .Stand => true
  | .Busts => true
  | .DDown => true
  | .Srndr => true

/-- src/hand.rs: `Hand::is_hard` — false as soon as an Ace is found. -/
def Hand.is_hard (h : Hand) : Bool :=
  h.cards.all (fun c => !(c.rank == Rank.Ace))

/-- src/hand.rs: the per-card accumulation step of the hard branch of
`Hand::value` (lines 77-90).  Finding an Ace aborts ("ace found in hard
hand"), modelled as `none`. -/
def hardStep (acc : Option Nat) (c : Card) : Option Nat :=
  match acc with
  | none => none
  | some value =>
    match c.rank with
    | Rank.Ace => none
    | Rank.Two => some (value + 2)
    | Rank.Three => some (value + 3)
    | Rank.Four => some (value + 4)
    | Rank.Five => some (value + 5)
    | Rank.Six => some (value + 6)
    | Rank.Seven => some (value + 7)
    | Rank.Eight => some (value + 8)
    | Rank.Nine => some (value + 9)
    | Rank.Ten | Rank.Jack | Rank.Queen | Rank.King => some (value + 10)

/-- src/hand.rs: the per-card accumulation step of the soft branch of
`Hand::value` (lines 94-107): an Ace counts 1. -/
def softStep (value : Nat) (c : Card) : Nat :=
  match c.rank with
  | Rank.Ace => value + 1
  | Rank.Two => value + 2
  | Rank.Three => value + 3
  | Rank.Four => value + 4
  | Rank.Five => value + 5
  | Rank.Six => value + 6
  | Rank.Seven => value + 7
  | Rank.Eight => value + 8
  | Rank.Nine => value + 9
  | Rank.Ten | Rank.Jack | Rank.Queen | Rank.King => value + 10

/-- src/hand.rs: `Hand::value`, with its internal abort path made
explicit: `none` is the "ace found in hard hand" abort of the hard
branch (proved unreachable below). -/
def Hand.valueOpt (h : Hand) : Option HandValue :=
  if h.is_hard then
    (h.cards.foldl hardStep (some 0)).map HandValue.Hard
  else
    some (HandValue.Soft (h.cards.foldl softStep 0)
      (h.cards.foldl softStep 0 + 10))

/-- src/hand.rs: `Hand::value` as the total function the rest of the
engine calls; the default is never taken (see the totality theorem). -/
def Hand.value (h : Hand) : HandValue :=
  (h.valueOpt).getD (HandValue.Hard 0)

/-- src/hand.rs: `Hand::is_bust`. -/
def Hand.is_bust (h : Hand) : Bool :=
  match h.value with
  | .Hard v => decide (v > 21)
  | .Soft lower _ => decide (lower > 21)

/-- src/hand.rs: `Hand::can_hit`. -/
def Hand.can_hit (h : Hand) : Bool :=
  if h.is_terminal then false else true

/-- src/hand.rs: `Hand::hit` — asserts `can_hit`, pushes the card, then
marks `Busts` when bust. -/
def Hand.hit (h : Hand) (added_card : Card) : Option Hand :=
  if h.can_hit then
    let pushed : Hand := { h with cards := h.cards ++ [added_card] }
    if pushed.is_bust then some { pushed with state := .Busts }
    else some pushed
  else none

/-- src/hand.rs: `Hand::can_stand`. -/
def Hand.can_stand (h : Hand) : Bool :=
  if h.is_terminal then false else true

/-- src/hand.rs: `Hand::stand` — the source asserts `can_hit` (an
identical predicate). -/
def Hand.stand (h : Hand) : Option Hand :=
  if h.can_hit then some { h with state := .Stand } else none

/-- src/hand.rs: `Hand::can_double_down`. -/
def Hand.can_double_down (h : Hand) (rules : RuleSet) : Bool :=
  if h.is_terminal then false
  else if !rules.das && h.state == HandState.Split then false
  else
    let hand_values : List Nat :=
      match h.value with
      | .Hard n => [n]
      | .Soft lower upper => [lower, upper]
    hand_values.any (fun hand_value =>
      rules.double_down_whitelist.contains hand_value)

/-- src/hand.rs: `Hand::double_down` — asserts only non-terminality
(not the full `can_double_down`), then doubles the bet. -/
def Hand.double_down (h : Hand) : Option Hand :=
  if h.is_terminal then none
  else some { h with bet := h.bet * 2, state := .DDown }

/-- src/hand.rs: `Hand::split` — no legality assertion at all.  The
source pops the last card (`unwrap` aborts on an empty hand, modelled
as `none`), pushes `card1` onto the remainder, and builds the second
hand from the popped card and `card2`; the first component is the
mutated original hand, the second the returned new hand. -/
def Hand.split (h : Hand) (card1 card2 : Card) (bet : ℚ)
    (lock_aces : Bool) : Option (Hand × Hand) :=
  match h.cards.getLast? with
  | none => none
  | some popped =>
    let st : HandState := if lock_aces then .SpltA else .Split
    some ({ h with cards := h.cards.dropLast ++ [card1], state := st },
      { cards := [popped, card2], bet := bet, state := st })

/-- src/hand.rs: `Hand::can_surrender`. -/
def Hand.can_surrender (h : Hand) (rules : RuleSet) : Bool :=
  if h.is_terminal then false
  else if rules.can_surrender then true
  else false

/-- src/hand.rs: `Hand::surrender` — the source performs no check at
all: it unconditionally sets the state and halves the bet. -/
def Hand.surrender (h : Hand) : Hand :=
  { h with state := .Srndr, bet := h.bet / 2 }

/-- src/play.rs: `Action` (renamed `PlayAction` here because Mathlib
already declares `Action`). -/
inductive PlayAction where
  | Hit
  | Stand
  | SplitAct (second_bet : ℚ)
  | DoubleDown (added_bet : ℚ)
  | Surrender
deriving DecidableEq, Repr

/-- src/play.rs: `Player { hands, funds, rules, ai }`. -/
structure Player where
  hands : List Hand
  funds : ℚ
  rules : RuleSet
  ai : Hand → PlayAction

/-- src/play.rs: `Player::can_split_hand` — exactly two cards of equal
rank, and room under the rule-set's max-hands cap. -/
def Player.can_split_hand (p : Player) (hand : Hand) : Bool :=
  match hand.cards with
  | [c0, c1] =>
    if c0.rank != c1.rank then false
    else if decide (p.hands.length ≥ p.rules.max_hands) then false
    else true
  | _ => false

/-- src/play.rs: `Player::split` — asserts `can_split_hand` and
`hand.bet() == second_bet`, then builds both hands with the original
bet; both get `SpltA` when the first card is an Ace and split aces are
not playable, else `Split`. -/
def Player.split (p : Player) (hand : Hand) (second_bet : ℚ)
    (card1 card2 : Card) : Option (Hand × Hand) :=
  if !(p.can_split_hand hand) then none
  else if hand.bet ≠ second_bet then none
  else
    match hand.cards with
    | c0 :: c1 :: _ =>
      let st : HandState :=
        if c0.rank == Rank.Ace && !p.rules.can_play_slit_aces
        then .SpltA else .Split
      some (⟨[c0, card1], hand.bet, st⟩, ⟨[c1, card2], hand.bet, st⟩)
    | _ => none

/-- src/play.rs: `Player::can_double_down_hand`. -/
def Player.can_double_down_hand (p : Player) (hand : Hand) : Bool :=
  if hand.is_terminal then false
  else if hand.state == HandState.Split && !p.rules.das then false
  else
    match hand.value with
    | .Hard n => p.rules.double_down_whitelist.contains n
    | .Soft lower upper =>
      p.rules.double_down_whitelist.contains lower ||
        p.rules.double_down_whitelist.contains upper

/-- src/play.rs: `Player::can_surrender_hand`. -/
def Player.can_surrender_hand (p : Player) (hand : Hand) : Bool :=
  if hand.is_terminal then false
  else if !p.rules.can_surrender then false
  else true

/-- Specification-side point value of a rank: Ace counts 1, Two..Nine
face value, Ten/Jack/Queen/King count 10. -/
def rankPoints : Rank → Nat
  | .Ace => 1
  | .Two => 2
  | .Three => 3
  | .Four => 4
  | .Five => 5
  | .Six => 6
  | .Seven => 7
  | .Eight => 8
  | .Nine => 9
  | .Ten => 10
  | .Jack => 10
  | .Queen => 10
  | .King => 10

/-- Specification-side base total of a hand: every Ace counted as 1. -/
def handPoints (h : Hand) : Nat :=
  (h.cards.map (fun c => rankPoints c.rank)).sum

/-- Specification-side: does the hand contain at least one Ace? -/
def hasAce (h : Hand) : Bool :=
  h.cards.any (fun c => c.rank == Rank.Ace)

/-- The lower bound of a hand value: the hard total, or the `lower`
field when soft. -/
def lowerBound : HandValue → Nat
  | .Hard v => v
  | .Soft lower _ => lower

theorem is_hard_iff (h : Hand) :
    h.is_hard = true ↔ ∀ c ∈ h.cards, c.rank ≠ Rank.Ace := by
  simp [Hand.is_hard, List.all_eq_true]

theorem hardStep_of_ne_ace (acc : Nat) (c : Card)
    (hne : c.rank ≠ Rank.Ace) :
    hardStep (some acc) c = some (acc + rankPoints c.rank) := by
  rcases c with ⟨s, r⟩
  cases r <;> simp_all [hardStep, rankPoints]

theorem foldl_hardStep (l : List Card) (acc : Nat)
    (hl : ∀ c ∈ l, c.rank ≠ Rank.Ace) :
    l.foldl hardStep (some acc) =
      some (acc + (l.map (fun c => rankPoints c.rank)).sum) := by
  induction l generalizing acc with
  | nil => simp
  | cons c l ih =>
    have hc : c.rank ≠ Rank.Ace := hl c (List.mem_cons_self c l)
    have hl' : ∀ c' ∈ l, c'.rank ≠ Rank.Ace :=
      fun c' hc' => hl c' (List.mem_cons_of_mem c hc')
    simp only [List.foldl_cons, hardStep_of_ne_ace acc c hc,
      ih (acc + rankPoints c.rank) hl', List.map_cons, List.sum_cons]
    ring_nf

theorem softStep_eq (acc : Nat) (c : Card) :
    softStep acc c = acc + rankPoints c.rank := by
  rcases c with ⟨s, r⟩
  cases r <;> simp [softStep, rankPoints]

theorem foldl_softStep (l : List Card) (acc : Nat) :
    l.foldl softStep acc = acc + (l.map (fun c => rankPoints c.rank)).sum := by
  induction l generalizing acc with
  | nil => simp
  | cons c l ih =>
    simp only [List.foldl_cons, softStep_eq, ih, List.map_cons,
      List.sum_cons]
    ring_nf

theorem hasAce_eq_not_is_hard (h : Hand) : hasAce h = !h.is_hard := by
  cases hx : h.is_hard with
  | false =>
    rw [Hand.is_hard] at hx
    simp [List.all_eq_true] at hx
    rcases hx with ⟨c, hc, hr⟩
    simp only [Bool.not_false, hasAce, List.any_eq_true]
    exact ⟨c, hc, by simpa using hr⟩
  | true =>
    have hall := (is_hard_iff h).mp hx
    simp only [Bool.not_true]
    simp [hasAce, List.any_eq_true]
    intro c hc
    exact hall c hc

theorem valueOpt_eq (h : Hand) :
    Hand.valueOpt h =
      some (if hasAce h
        then HandValue.Soft (handPoints h) (handPoints h + 10)
        else HandValue.Hard (handPoints h)) := by
  by_cases hh : h.is_hard = true
  · have hnoace := (is_hard_iff h).mp hh
    have : hasAce h = false := by
      rw [hasAce_eq_not_is_hard, hh]; rfl
    rw [Hand.valueOpt, if_pos hh, foldl_hardStep h.cards 0 hnoace, this]
    simp [handPoints]
  · have hh' : h.is_hard = false := by
      cases hb : h.is_hard
      · rfl
      · exact absurd hb hh
    have : hasAce h = true := by rw [hasAce_eq_not_is_hard, hh']; rfl
    rw [Hand.valueOpt, if_neg hh, foldl_softStep h.cards 0, this]
    simp [handPoints]

/-- C6: a hand with no Ace has value `Hard` of the sum of its ranks'
point values (Two..Nine face value, Ten/Jack/Queen/King 10); a hand
with at least one Ace has value `Soft lower (lower + 10)` where `lower`
counts every Ace as 1, however many Aces are present. -/
theorem value_hard_soft_characterization (h : Hand) :
    Hand.value h =
      if hasAce h
      then HandValue.Soft (handPoints h) (handPoints h + 10)
      else HandValue.Hard (handPoints h) := by
  rw [Hand.value, valueOpt_eq]
  rfl

/-- C10: `Hand::value` is total: its internal abort branch ("ace found
in hard hand") is unreachable on every hand, and on the empty hand the
result is `Hard 0`. -/
theorem valueOpt_total (h : Hand) :
    (Hand.valueOpt h).isSome = true ∧
      (h.cards = [] → Hand.valueOpt h = some (HandValue.Hard 0)) := by
  constructor
  · rw [valueOpt_eq]; rfl
  · intro hnil
    rw [valueOpt_eq]
    simp [hasAce, handPoints, hnil]

/-- Witness for C10 at the empty hand. -/
theorem valueOpt_total_w :
    (Hand.valueOpt ⟨[], 1, .Fresh⟩).isSome = true ∧
      ((⟨[], 1, .Fresh⟩ : Hand).cards = [] →
        Hand.valueOpt ⟨[], 1, .Fresh⟩ = some (HandValue.Hard 0)) :=
  valueOpt_total ⟨[], 1, .Fresh⟩

theorem is_bust_iff_lowerBound (h : Hand) :
    h.is_bust = decide (21 < lowerBound h.value) := by
  cases hv : h.value <;> simp [Hand.is_bust, hv, lowerBound]

/-- C8: on a non-terminal hand, `hit` appends the card at the end of
the card sequence, and the resulting state is `Busts` exactly when the
lower bound of the new value exceeds 21, else the state is unchanged. -/
theorem hit_appends_and_marks_bust (h : Hand) (c : Card)
    (hnt : h.is_terminal = false) :
    Option.map Hand.cards (Hand.hit h c) = some (h.cards ++ [c]) ∧
    Option.map Hand.state (Hand.hit h c) =
      some (if 21 < lowerBound (Hand.value ⟨h.cards ++ [c], h.bet, h.state⟩)
        then HandState.Busts else h.state) := by
  have hch : Hand.can_hit h = true := by simp [Hand.can_hit, hnt]
  by_cases hb : 21 < lowerBound (Hand.value ⟨h.cards ++ [c], h.bet, h.state⟩)
  · have hbust : Hand.is_bust ⟨h.cards ++ [c], h.bet, h.state⟩ = true := by
      rw [is_bust_iff_lowerBound]
      exact decide_eq_true hb
    simp [Hand.hit, hch, hbust, hb]
  · have hbust : Hand.is_bust ⟨h.cards ++ [c], h.bet, h.state⟩ = false := by
      rw [is_bust_iff_lowerBound]
      simpa using hb
    simp [Hand.hit, hch, hbust, hb]

/-- Witness for C8: Ten of clubs + Two of clubs, hit with Ten of
hearts, goes to `Busts`. -/
theorem hit_appends_and_marks_bust_w :
    Option.map Hand.cards
        (Hand.hit ⟨[⟨.Clubs, .Ten⟩, ⟨.Clubs, .Two⟩], 1, .Fresh⟩ ⟨.Hearts, .Ten⟩) =
      some ([⟨.Clubs, .Ten⟩, ⟨.Clubs, .Two⟩] ++ [⟨.Hearts, .Ten⟩]) ∧
    Option.map Hand.state
        (Hand.hit ⟨[⟨.Clubs, .Ten⟩, ⟨.Clubs, .Two⟩], 1, .Fresh⟩ ⟨.Hearts, .Ten⟩) =
      some (if 21 < lowerBound (Hand.value
          ⟨[⟨.Clubs, .Ten⟩, ⟨.Clubs, .Two⟩] ++ [⟨.Hearts, .Ten⟩], 1, .Fresh⟩)
        then HandState.Busts else HandState.Fresh) :=
  hit_appends_and_marks_bust ⟨[⟨.Clubs, .Ten⟩, ⟨.Clubs, .Two⟩], 1, .Fresh⟩
    ⟨.Hearts, .Ten⟩ rfl

/-- C7: on a non-terminal hand (with at least one card, per the data
model's non-empty invariant), surrender exactly halves the bet,
double-down exactly doubles it, and hit, stand and split (on the
original side) leave it unchanged. -/
theorem bet_frame_conditions (h : Hand) (c c1 c2 : Card) (q : ℚ)
    (la : Bool) (hnt : h.is_terminal = false) (hc : h.cards ≠ []) :
    (Hand.surrender h).bet = h.bet / 2 ∧
    Option.map Hand.bet (Hand.double_down h) = some (h.bet * 2) ∧
    Option.map Hand.bet (Hand.hit h c) = some h.bet ∧
    Option.map Hand.bet (Hand.stand h) = some h.bet ∧
    Option.map (fun r => Hand.bet r.1) (Hand.split h c1 c2 q la) =
      some h.bet := by
  refine ⟨rfl, ?_, ?_, ?_, ?_⟩
  · simp [Hand.double_down, hnt]
  · have hch : Hand.can_hit h = true := by simp [Hand.can_hit, hnt]
    by_cases hb : Hand.is_bust ⟨h.cards ++ [c], h.bet, h.state⟩ = true
    · simp [Hand.hit, hch, hb]
    · simp [Hand.hit, hch, hb]
  · have hch : Hand.can_hit h = true := by simp [Hand.can_hit, hnt]
    simp [Hand.stand, hch]
  · rcases hgl : h.cards.getLast? with _ | p
    · rw [List.getLast?_eq_none_iff] at hgl
      exact absurd hgl hc
    · simp [Hand.split, hgl]

/-- Witness for C7 at a fresh two-card hand. -/
theorem bet_frame_conditions_w :
    (Hand.surrender ⟨[⟨.Clubs, .Five⟩, ⟨.Clubs, .Six⟩], 1, .Fresh⟩).bet = 1 / 2 ∧
    Option.map Hand.bet
        (Hand.double_down ⟨[⟨.Clubs, .Five⟩, ⟨.Clubs, .Six⟩], 1, .Fresh⟩) =
      some (1 * 2) ∧
    Option.map Hand.bet
        (Hand.hit ⟨[⟨.Clubs, .Five⟩, ⟨.Clubs, .Six⟩], 1, .Fresh⟩ ⟨.Hearts, .Two⟩) =
      some 1 ∧
    Option.map Hand.bet
        (Hand.stand ⟨[⟨.Clubs, .Five⟩, ⟨.Clubs, .Six⟩], 1, .Fresh⟩) = some 1 ∧
    Option.map (fun r => Hand.bet r.1)
        (Hand.split ⟨[⟨.Clubs, .Five⟩, ⟨.Clubs, .Six⟩], 1, .Fresh⟩
          ⟨.Hearts, .Two⟩ ⟨.Spades, .Three⟩ 1 false) = some 1 :=
  bet_frame_conditions ⟨[⟨.Clubs, .Five⟩, ⟨.Clubs, .Six⟩], 1, .Fresh⟩
    ⟨.Hearts, .Two⟩ ⟨.Hearts, .Two⟩ ⟨.Spades, .Three⟩ 1 false rfl (by decide)

/-- C1 (failing input): on a stood — hence terminal — hand,
`can_surrender` is false (for a rule set that allows surrender), yet
`Hand::surrender` returns normally and performs the transition,
halving the bet and setting the state; the legality predicate and the
mutating operation disagree. -/
theorem surrender_disagrees_with_predicate :
    Hand.can_surrender ⟨[⟨.Clubs, .Six⟩, ⟨.Diamonds, .Six⟩], 1, .Stand⟩
        ⟨4, 4, 1, 1, .Continuous, .H17, 3 / 2, [9, 10, 11], 3, false,
          false, true⟩ = false ∧
    Hand.surrender ⟨[⟨.Clubs, .Six⟩, ⟨.Diamonds, .Six⟩], 1, .Stand⟩ =
      ⟨[⟨.Clubs, .Six⟩, ⟨.Diamonds, .Six⟩], 1 / 2, .Srndr⟩ :=
  ⟨rfl, rfl⟩

/-- C2 (failing input): on a busted — terminal — hand, `Hand::split`
succeeds, mutates the cards, and even resets the state to the
non-terminal `Split`: terminal states are not absorbing. -/
theorem split_succeeds_on_terminal_hand :
    Hand.is_terminal ⟨[⟨.Clubs, .Six⟩, ⟨.Diamonds, .Six⟩], 1, .Busts⟩ = true ∧
    Hand.split ⟨[⟨.Clubs, .Six⟩, ⟨.Diamonds, .Six⟩], 1, .Busts⟩
        ⟨.Hearts, .Two⟩ ⟨.Spades, .Three⟩ 1 false =
      some (⟨[⟨.Clubs, .Six⟩, ⟨.Hearts, .Two⟩], 1, .Split⟩,
        ⟨[⟨.Diamonds, .Six⟩, ⟨.Spades, .Three⟩], 1, .Split⟩) :=
  ⟨rfl, by decide⟩

/-- C4 (failing input): `RuleSet::new` only rejects a min bet equal to
zero (or exceeding the max bet); a negative min bet of -1 with max bet
1 is accepted, although -1 < 0. -/
theorem ruleset_accepts_negative_min_bet :
    ((-1 : ℚ) < 0) ∧
    RuleSet.new 4 4 (-1) 1 .Continuous .H17 (3 / 2) [9, 10, 11] 3
        false false false =
      .ok ⟨4, 4, -1, 1, .Continuous, .H17, 3 / 2, [9, 10, 11], 3,
        false, false, false⟩ := by
  constructor
  · norm_num
  · rfl

/-- The list of totals `can_double_down` compares against the
whitelist: the hard total, or both soft totals (the source's
`hand_values`). -/
def currentTotals (h : Hand) : List Nat :=
  match h.value with
  | .Hard n => [n]
  | .Soft lower upper => [lower, upper]

/-- C3 counterexample: a fresh three-card hand of total 9 with 9 on the
whitelist is accepted by `can_double_down` although it does not have
exactly 2 cards — the two-card pre-condition is not checked. -/
theorem can_double_down_accepts_three_cards :
    Hand.can_double_down
        ⟨[⟨.Clubs, .Two⟩, ⟨.Clubs, .Three⟩, ⟨.Clubs, .Four⟩], 1, .Fresh⟩
        ⟨4, 4, 1, 1, .Continuous, .H17, 3 / 2, [9, 10, 11], 3, false,
          false, false⟩ = true ∧
    (⟨[⟨.Clubs, .Two⟩, ⟨.Clubs, .Three⟩, ⟨.Clubs, .Four⟩], 1,
        .Fresh⟩ : Hand).cards.length ≠ 2 := by
  constructor
  · rfl
  · decide

/-- C3 (amended): for every non-terminal hand, `can_double_down` is
true iff some current total (the hard total, or the lower or upper
soft total) is on the rule-set's double-down whitelist and, when the
hand's state is `Split`, the rule-set's double-after-split flag is
set.  (The card count is not examined, and an empty whitelist forbids
all doubling — the rule set has no unrestricted-doubling encoding.) -/
theorem can_double_down_characterization (h : Hand) (rules : RuleSet)
    (hnt : h.is_terminal = false) :
    Hand.can_double_down h rules = true ↔
      ((h.state = HandState.Split → rules.das = true) ∧
        ∃ v ∈ currentTotals h, v ∈ rules.double_down_whitelist) := by
  rw [Hand.can_double_down, currentTotals]
  simp only [hnt, Bool.false_eq_true, if_false]
  cases hdas : rules.das with
  | false =>
    by_cases hsplit : h.state = HandState.Split
    · simp [hsplit, hdas]
    · have : (h.state == HandState.Split) = false := by
        simpa using hsplit
      simp only [hdas, Bool.not_false, Bool.true_and, this, if_false]
      cases hv : h.value <;>
        simp [List.any_eq_true, hsplit, List.elem_iff]
  | true =>
    simp only [hdas, Bool.not_true, Bool.false_and, if_false]
    cases hv : h.value <;>
      simp [List.any_eq_true, hdas, List.elem_iff]

/-- Witness for the amended C3 at a fresh 5+6 hand with whitelist
[9, 10, 11]. -/
theorem can_double_down_characterization_w :
    Hand.can_double_down ⟨[⟨.Clubs, .Five⟩, ⟨.Clubs, .Six⟩], 1, .Fresh⟩
        ⟨4, 4, 1, 1, .Continuous, .H17, 3 / 2, [9, 10, 11], 3, false,
          false, false⟩ = true ↔
      (((⟨[⟨.Clubs, .Five⟩, ⟨.Clubs, .Six⟩], 1, .Fresh⟩ : Hand).state =
          HandState.Split →
        (⟨4, 4, 1, 1, .Continuous, .H17, 3 / 2, [9, 10, 11], 3, false,
          false, false⟩ : RuleSet).das = true) ∧
        ∃ v ∈ currentTotals ⟨[⟨.Clubs, .Five⟩, ⟨.Clubs, .Six⟩], 1, .Fresh⟩,
          v ∈ (⟨4, 4, 1, 1, .Continuous, .H17, 3 / 2, [9, 10, 11], 3,
            false, false, false⟩ : RuleSet).double_down_whitelist) :=
  can_double_down_characterization
    ⟨[⟨.Clubs, .Five⟩, ⟨.Clubs, .Six⟩], 1, .Fresh⟩
    ⟨4, 4, 1, 1, .Continuous, .H17, 3 / 2, [9, 10, 11], 3, false,
      false, false⟩ rfl

/-- C5: when a two-card hand is split — at the player level
(`Player::split`), or at the hand level (`Hand::split`) with the
original bet supplied, as the player level enforces — the two resulting
hands hold the first original card plus the first draw card and the
second original card plus the second draw card respectively, their
cards together are a permutation of the original pair plus the two draw
cards, and both carry the original bet. -/
theorem split_conserves_cards_and_bet (p : Player) (h : Hand)
    (a b : Card) (sb : ℚ) (c1 c2 : Card) (h1 h2 g1 g2 : Hand) (la : Bool)
    (hcards : h.cards = [a, b])
    (hp : Player.split p h sb c1 c2 = some (h1, h2))
    (hh : Hand.split h c1 c2 h.bet la = some (g1, g2)) :
    (h1.cards = [a, c1] ∧ h2.cards = [b, c2] ∧
      (h1.cards ++ h2.cards).Perm (h.cards ++ [c1, c2]) ∧
      h1.bet = h.bet ∧ h2.bet = h.bet) ∧
    (g1.cards = [a, c1] ∧ g2.cards = [b, c2] ∧
      (g1.cards ++ g2.cards).Perm (h.cards ++ [c1, c2]) ∧
      g1.bet = h.bet ∧ g2.bet = h.bet) := by
  rw [Player.split, hcards] at hp
  rw [Hand.split, hcards] at hh
  simp only [List.getLast?, List.dropLast] at hh
  split_ifs at hp with hA hB
  all_goals simp at hp hh
  all_goals
    obtain ⟨rfl, rfl⟩ := hp
  all_goals
    obtain ⟨rfl, rfl⟩ := hh
  all_goals rw [hcards]
  all_goals
    refine ⟨⟨rfl, rfl, ?_, rfl, rfl⟩, ⟨rfl, rfl, ?_, rfl, rfl⟩⟩ <;>
      exact List.Perm.cons a (List.Perm.swap b c1 [c2])

/-- Witness for C5: splitting a pair of sixes with bet 1. -/
theorem split_conserves_cards_and_bet_w :
    ((⟨[⟨.Clubs, .Six⟩, ⟨.Hearts, .Two⟩], 1, .Split⟩ : Hand).cards =
        [⟨.Clubs, .Six⟩, ⟨.Hearts, .Two⟩] ∧
      (⟨[⟨.Diamonds, .Six⟩, ⟨.Spades, .Three⟩], 1, .Split⟩ : Hand).cards =
        [⟨.Diamonds, .Six⟩, ⟨.Spades, .Three⟩] ∧
      ((⟨[⟨.Clubs, .Six⟩, ⟨.Hearts, .Two⟩], 1, .Split⟩ : Hand).cards ++
        (⟨[⟨.Diamonds, .Six⟩, ⟨.Spades, .Three⟩], 1, .Split⟩ : Hand).cards).Perm
        ((⟨[⟨.Clubs, .Six⟩, ⟨.Diamonds, .Six⟩], 1, .Fresh⟩ : Hand).cards ++
          [⟨.Hearts, .Two⟩, ⟨.Spades, .Three⟩]) ∧
      (⟨[⟨.Clubs, .Six⟩, ⟨.Hearts, .Two⟩], 1, .Split⟩ : Hand).bet =
        (⟨[⟨.Clubs, .Six⟩, ⟨.Diamonds, .Six⟩], 1, .Fresh⟩ : Hand).bet ∧
      (⟨[⟨.Diamonds, .Six⟩, ⟨.Spades, .Three⟩], 1, .Split⟩ : Hand).bet =
        (⟨[⟨.Clubs, .Six⟩, ⟨.Diamonds, .Six⟩], 1, .Fresh⟩ : Hand).bet) ∧
    ((⟨[⟨.Clubs, .Six⟩, ⟨.Hearts, .Two⟩], 1, .Split⟩ : Hand).cards =
        [⟨.Clubs, .Six⟩, ⟨.Hearts, .Two⟩] ∧
      (⟨[⟨.Diamonds, .Six⟩, ⟨.Spades, .Three⟩], 1, .Split⟩ : Hand).cards =
        [⟨.Diamonds, .Six⟩, ⟨.Spades, .Three⟩] ∧
      ((⟨[⟨.Clubs, .Six⟩, ⟨.Hearts, .Two⟩], 1, .Split⟩ : Hand).cards ++
        (⟨[⟨.Diamonds, .Six⟩, ⟨.Spades, .Three⟩], 1, .Split⟩ : Hand).cards).Perm
        ((⟨[⟨.Clubs, .Six⟩, ⟨.Diamonds, .Six⟩], 1, .Fresh⟩ : Hand).cards ++
          [⟨.Hearts, .Two⟩, ⟨.Spades, .Three⟩]) ∧
      (⟨[⟨.Clubs, .Six⟩, ⟨.Hearts, .Two⟩], 1, .Split⟩ : Hand).bet =
        (⟨[⟨.Clubs, .Six⟩, ⟨.Diamonds, .Six⟩], 1, .Fresh⟩ : Hand).bet ∧
      (⟨[⟨.Diamonds, .Six⟩, ⟨.Spades, .Three⟩], 1, .Split⟩ : Hand).bet =
        (⟨[⟨.Clubs, .Six⟩, ⟨.Diamonds, .Six⟩], 1, .Fresh⟩ : Hand).bet) :=
  split_conserves_cards_and_bet
    ⟨[⟨[⟨.Clubs, .Six⟩, ⟨.Diamonds, .Six⟩], 1, .Fresh⟩], 100,
      ⟨4, 4, 1, 1, .Continuous, .H17, 3 / 2, [9, 10, 11], 3, false,
        false, false⟩, fun _ => PlayAction.Stand⟩
    ⟨[⟨.Clubs, .Six⟩, ⟨.Diamonds, .Six⟩], 1, .Fresh⟩
    ⟨.Clubs, .Six⟩ ⟨.Diamonds, .Six⟩ 1 ⟨.Hearts, .Two⟩ ⟨.Spades, .Three⟩
    ⟨[⟨.Clubs, .Six⟩, ⟨.Hearts, .Two⟩], 1, .Split⟩
    ⟨[⟨.Diamonds, .Six⟩, ⟨.Spades, .Three⟩], 1, .Split⟩
    ⟨[⟨.Clubs, .Six⟩, ⟨.Hearts, .Two⟩], 1, .Split⟩
    ⟨[⟨.Diamonds, .Six⟩, ⟨.Spades, .Three⟩], 1, .Split⟩
    false rfl (by decide) (by decide)

/-- C9: when `Player::split` succeeds on a pair of Aces and the rule
set's split-aces-playable flag is off, both resulting hands are in the
terminal `SpltA` state, so `can_hit` and `can_double_down` are false
on each immediately; for any other pair, or when split aces are
playable, both resulting hands are in the `Split` state. -/
theorem split_aces_locked (p : Player) (h : Hand) (sb : ℚ)
    (c1 c2 : Card) (h1 h2 : Hand)
    (hp : Player.split p h sb c1 c2 = some (h1, h2)) :
    ((hasAce h = true ∧ p.rules.can_play_slit_aces = false) →
      h1.state = .SpltA ∧ h2.state = .SpltA ∧
      Hand.can_hit h1 = false ∧ Hand.can_hit h2 = false ∧
      Hand.can_double_down h1 p.rules = false ∧
      Hand.can_double_down h2 p.rules = false) ∧
    ((hasAce h = false ∨ p.rules.can_play_slit_aces = true) →
      h1.state = .Split ∧ h2.state = .Split) := by
  rw [Player.split] at hp
  split_ifs at hp with hA hB
  all_goals try simp at hp
  have hcs : p.can_split_hand h = true := by simpa using hA
  rcases hlist : h.cards with _ | ⟨c0, _ | ⟨d, rest⟩⟩
  · rw [Player.can_split_hand, hlist] at hcs
    simp at hcs
  · rw [Player.can_split_hand, hlist] at hcs
    simp at hcs
  · cases rest with
    | cons e es =>
      rw [Player.can_split_hand, hlist] at hcs
      simp at hcs
    | nil =>
      have hrk : c0.rank = d.rank := by
        rw [Player.can_split_hand, hlist] at hcs
        by_contra hne
        simp [hne] at hcs
      rw [hlist] at hp
      simp at hp
      obtain ⟨rfl, rfl⟩ := hp
      constructor
      · rintro ⟨hace, hcps⟩
        have hc0 : c0.rank = Rank.Ace := by
          simp [hasAce, hlist] at hace
          rcases hace with hx | hx
          · exact hx
          · exact hrk.trans hx
        simp [hc0, hcps, Hand.can_hit, Hand.is_terminal,
          Hand.can_double_down]
      · rintro (hace | hcps)
        · have hc0 : ¬ c0.rank = Rank.Ace := by
            simp [hasAce, hlist] at hace
            exact hace.1
          simp [hc0]
        · simp [hcps]

/-- Witness for C9: splitting a pair of Aces with split aces not
playable locks both hands. -/
theorem split_aces_locked_w :
    ((hasAce ⟨[⟨.Clubs, .Ace⟩, ⟨.Spades, .Ace⟩], 1, .Fresh⟩ = true ∧
      (⟨[⟨[⟨.Clubs, .Ace⟩, ⟨.Spades, .Ace⟩], 1, .Fresh⟩], 100,
        ⟨4, 4, 1, 1, .Continuous, .H17, 3 / 2, [9, 10, 11], 3, false,
          false, false⟩, fun _ => PlayAction.Stand⟩ : Player).rules.can_play_slit_aces = false) →
      (⟨[⟨.Clubs, .Ace⟩, ⟨.Hearts, .Five⟩], 1, .SpltA⟩ : Hand).state = .SpltA ∧
      (⟨[⟨.Spades, .Ace⟩, ⟨.Diamonds, .Seven⟩], 1, .SpltA⟩ : Hand).state = .SpltA ∧
      Hand.can_hit ⟨[⟨.Clubs, .Ace⟩, ⟨.Hearts, .Five⟩], 1, .SpltA⟩ = false ∧
      Hand.can_hit ⟨[⟨.Spades, .Ace⟩, ⟨.Diamonds, .Seven⟩], 1, .SpltA⟩ = false ∧
      Hand.can_double_down ⟨[⟨.Clubs, .Ace⟩, ⟨.Hearts, .Five⟩], 1, .SpltA⟩
        (⟨[⟨[⟨.Clubs, .Ace⟩, ⟨.Spades, .Ace⟩], 1, .Fresh⟩], 100,
          ⟨4, 4, 1, 1, .Continuous, .H17, 3 / 2, [9, 10, 11], 3, false,
            false, false⟩, fun _ => PlayAction.Stand⟩ : Player).rules = false ∧
      Hand.can_double_down ⟨[⟨.Spades, .Ace⟩, ⟨.Diamonds, .Seven⟩], 1, .SpltA⟩
        (⟨[⟨[⟨.Clubs, .Ace⟩, ⟨.Spades, .Ace⟩], 1, .Fresh⟩], 100,
          ⟨4, 4, 1, 1, .Continuous, .H17, 3 / 2, [9, 10, 11], 3, false,
            false, false⟩, fun _ => PlayAction.Stand⟩ : Player).rules = false) ∧
    ((hasAce ⟨[⟨.Clubs, .Ace⟩, ⟨.Spades, .Ace⟩], 1, .Fresh⟩ = false ∨
      (⟨[⟨[⟨.Clubs, .Ace⟩, ⟨.Spades, .Ace⟩], 1, .Fresh⟩], 100,
        ⟨4, 4, 1, 1, .Continuous, .H17, 3 / 2, [9, 10, 11], 3, false,
          false, false⟩, fun _ => PlayAction.Stand⟩ : Player).rules.can_play_slit_aces = true) →
      (⟨[⟨.Clubs, .Ace⟩, ⟨.Hearts, .Five⟩], 1, .SpltA⟩ : Hand).state = .Split ∧
      (⟨[⟨.Spades, .Ace⟩, ⟨.Diamonds, .Seven⟩], 1, .SpltA⟩ : Hand).state = .Split) :=
  split_aces_locked
    ⟨[⟨[⟨.Clubs, .Ace⟩, ⟨.Spades, .Ace⟩], 1, .Fresh⟩], 100,
      ⟨4, 4, 1, 1, .Continuous, .H17, 3 / 2, [9, 10, 11], 3, false,
        false, false⟩, fun _ => PlayAction.Stand⟩
    ⟨[⟨.Clubs, .Ace⟩, ⟨.Spades, .Ace⟩], 1, .Fresh⟩ 1
    ⟨.Hearts, .Five⟩ ⟨.Diamonds, .Seven⟩
    ⟨[⟨.Clubs, .Ace⟩, ⟨.Hearts, .Five⟩], 1, .SpltA⟩
    ⟨[⟨.Spades, .Ace⟩, ⟨.Diamonds, .Seven⟩], 1, .SpltA⟩
    (by decide)
